import Mathlib

/-!
Verification of the claimscope run-processing core.

Shallow embedding of the worker code:
* `apps/api/worker/main.py` — queue poller, budget guard, run dispatch
* `apps/api/worker/reasoning_gsm8k.py` — retry policy, bootstrap confidence interval
* `apps/api/worker/trace_manifest.py` — provenance digest, trace recording
* `apps/api/worker/coding_competition.py` — tournament evaluator, code extraction

Python floats that only ever hold small decimal constants and exact
sums/quotients of integers are modelled as rationals; byte strings as
`List ℕ`; the SHA-256 hash as an abstract function parameter (its
collision-freeness as injectivity); Python's seeded Mersenne Twister as an
abstract deterministic generator parameter `gen : ℕ → ℕ → ℕ` (seed and call
index to a value), which is all the code relies on.
-/

namespace Claimscope

/-! ### Budget guard — `main.py` `_guard_cost` (lines 258–298) and `_coerce_budget` (176–181) -/

inductive GuardDecision where
  | allow
  | failMissingBudget
  | failBudgetExceeded
deriving DecidableEq, Repr

/-- Embeds `_guard_cost(expected_cost)` with the coerced `budget` in scope:
`expected_cost <= 0` allows; then `budget <= 0` fails with reason
`missing_budget`; then `expected_cost <= budget` allows; otherwise fails with
reason `budget_exceeded`. -/
def guardCost (expectedCost budget : ℚ) : GuardDecision :=
  if expectedCost ≤ 0 then GuardDecision.allow
  else if budget ≤ 0 then GuardDecision.failMissingBudget
  else if expectedCost ≤ budget then GuardDecision.allow
  else GuardDecision.failBudgetExceeded

/-- The raw `budget_usd` value found in the model configuration: a JSON
number, a string that `float()` parses, a string it rejects, or JSON null
(Python `None`). -/
inductive BudgetRaw where
  | num (q : ℚ)
  | strNum (q : ℚ)
  | strBad (s : String)
  | null
deriving DecidableEq

/-- Embeds `_coerce_budget`: `model_cfg.get("budget_usd", 0.0)` (absent key
modelled as `none`) passed through `float(...)`; `TypeError` (from `None`) and
`ValueError` (from an unparseable string) both yield `0.0`. -/
def coerce_budget : Option BudgetRaw → ℚ
  | none => 0
  | some (BudgetRaw.num q) => q
  | some (BudgetRaw.strNum q) => q
  | some (BudgetRaw.strBad _) => 0
  | some BudgetRaw.null => 0

/-! ### Retry policy — `reasoning_gsm8k.py` lines 14–16 and 54–85 -/

/-- Embeds `RETRIABLE_STATUS` exactly as the source writes it. -/
def RETRIABLE_STATUS : List ℕ :=
  [408, 409, 425, 429, 500, 502, 503, 504, 521, 522, 523, 524, 525, 526, 527, 529]

/-- What the `except` handler can read off a raised exception: an optional
HTTP status code (`status_code` on the exception or its `response`) and
whether the exception is an instance of one of the known transient anthropic
exception classes (`retriable_types`). -/
structure ProviderError where
  status : Option ℕ
  transientType : Bool
deriving DecidableEq, Repr

/-- One attempt of the provider call either returns a message or raises. -/
inductive AttemptOutcome (μ : Type) where
  | ok (msg : μ)
  | raise (e : ProviderError)

/-- Embeds `retriable = status in RETRIABLE_STATUS or isinstance(exc, retriable_types)`
(`status` may be `None`, which is never in the set). -/
def isRetriable (e : ProviderError) : Bool :=
  (match e.status with
   | some s => decide (s ∈ RETRIABLE_STATUS)
   | none => false) || e.transientType

/-- Embeds `delay = BACKOFF_BASE_SECONDS * (2 ** attempt) + rng.random() * 0.5`;
the seeded `rng.random() * 0.5` draw for a given attempt is the abstract
`jitter` function. -/
def backoffDelay (base : ℚ) (jitter : ℕ → ℚ) (attempt : ℕ) : ℚ :=
  base * 2 ^ attempt + jitter attempt

/-- Embeds the `for attempt in range(MAX_RETRIES)` retry loop, structurally
recursing on `remaining = MAX_RETRIES - attempt` (so the source's
`attempt < MAX_RETRIES - 1` guard is `remaining ≥ 2`). Returns the final
outcome together with the list of backoff sleeps performed, in order. A
retriable failure with attempts left sleeps `backoffDelay` and continues; any
other failure re-raises immediately with no sleep. -/
def retryGo {μ : Type} (base : ℚ) (jitter : ℕ → ℚ) (call : ℕ → AttemptOutcome μ) :
    ℕ → ℕ → Except ProviderError μ × List ℚ
  | _, 0 => (Except.error ⟨none, false⟩, [])
  | attempt, r + 1 =>
    match call attempt with
    | AttemptOutcome.ok m => (Except.ok m, [])
    | AttemptOutcome.raise e =>
      if isRetriable e ∧ 1 ≤ r then
        let next := retryGo base jitter call (attempt + 1) r
        (next.1, backoffDelay base jitter attempt :: next.2)
      else (Except.error e, [])

/-- The whole guarded provider call: attempts `0, 1, …, maxRetries - 1`. -/
def providerCall {μ : Type} (base : ℚ) (jitter : ℕ → ℚ) (call : ℕ → AttemptOutcome μ)
    (maxRetries : ℕ) : Except ProviderError μ × List ℚ :=
  retryGo base jitter call 0 maxRetries

/-! ### Statistics engine — `reasoning_gsm8k.py` `bootstrap_ci` (lines 124–135)

`random.seed(seed)` followed by a stream of `_r.choice(values)` calls is
modelled by the abstract generator `gen`: the k-th draw after seeding with
`seed` picks index `gen seed k % len(values)`.  `int(0.025 * reps)` and
`int(0.975 * reps)` truncate a float product whose factor is the double
nearest to 0.025 (resp. 0.975), which lies strictly above the decimal value;
for every feasible `reps` the truncation therefore equals the exact rational
floor `⌊25·reps/1000⌋` (resp. `⌊975·reps/1000⌋`), which is how the indices
are written here. -/

/-- One `_r.choice(values)` draw, the `k`-th since seeding. -/
def pyChoice (gen : ℕ → ℕ → ℕ) (seed k : ℕ) (values : List ℚ) : ℚ :=
  values.getD (gen seed k % values.length) 0

/-- The `reps` resample means, in generation order: resample `r` draws `n`
outcomes with replacement and averages them (`sum(sample) / float(n)`). -/
def resampleMeans (gen : ℕ → ℕ → ℕ) (values : List ℚ) (n reps seed : ℕ) : List ℚ :=
  (List.range reps).map fun r =>
    (((List.range n).map fun i => pyChoice gen seed (r * n + i) values).sum) / (n : ℚ)

/-- `means.sort()`. -/
def sortedMeans (gen : ℕ → ℕ → ℕ) (values : List ℚ) (n reps seed : ℕ) : List ℚ :=
  (resampleMeans gen values n reps seed).insertionSort (· ≤ ·)

/-- Embeds `bootstrap_ci(values, n, reps, seed)`:
`(means[int(0.025 * reps)], means[int(0.975 * reps)])` on the sorted means. -/
def bootstrap_ci (gen : ℕ → ℕ → ℕ) (values : List ℚ) (n reps seed : ℕ) : ℚ × ℚ :=
  let means := sortedMeans gen values n reps seed
  (means.getD (25 * reps / 1000) 0, means.getD (975 * reps / 1000) 0)

/-! ### Provenance digest — `trace_manifest.py` `_resolve_paths` (15–24) and
`compute_digest` (27–33)

A path is an (already resolved) string; the filesystem maps a path to its
node, if any.  `str.encode("utf-8")` is modelled as the list of code points,
and the running SHA-256 as an abstract function of the whole byte stream fed
to it, in order. -/

/-- What `_resolve_paths` reads off a path: `p.is_file()` and, for
`compute_digest`, `p.read_bytes()`. -/
structure FileData where
  isFile : Bool
  content : List ℕ
deriving DecidableEq

/-- A filesystem; `p.exists()` is `(fs p).isSome`. -/
def FileSystem := String → Option FileData

/-- The filter applied by `_resolve_paths`: `p.exists() and p.is_file()`. -/
def isRegularFile (fs : FileSystem) (p : String) : Bool :=
  match fs p with
  | some fd => fd.isFile
  | none => false

/-- `p.read_bytes()` (only ever called on resolved regular files). -/
def contentOf (fs : FileSystem) (p : String) : List ℕ :=
  match fs p with
  | some fd => fd.content
  | none => []

/-- Embeds `_resolve_paths`: keep the paths that exist and are regular files. -/
def resolve_paths (fs : FileSystem) (paths : List String) : List String :=
  paths.filter (fun p => isRegularFile fs p)

/-- `Path(p).name`: the final path component. -/
def pyBasename (p : String) : String :=
  (p.splitOn "/").getLastD ""

/-- `s.encode("utf-8")`, with code points standing in for bytes. -/
def strBytes (s : String) : List ℕ :=
  s.data.map Char.toNat

/-- The two `digest.update` calls for one file:
`f"FILE::{file_path.name}".encode("utf-8")` then the file's bytes. -/
def fileSegment (fs : FileSystem) (p : String) : List ℕ :=
  strBytes ("FILE::" ++ pyBasename p) ++ contentOf fs p

/-- The full byte stream fed to the running hash: the resolved files sorted
by path string (`sorted(files, key=lambda p: str(p))`), each contributing its
name marker and raw bytes. -/
def digestStream (fs : FileSystem) (paths : List String) : List ℕ :=
  (((resolve_paths fs paths).insertionSort (· ≤ ·)).map (fileSegment fs)).flatten

/-- Embeds `compute_digest(paths)`; `hash` is the SHA-256 of a byte stream
(`hashlib.sha256` fed incrementally, read out with `hexdigest`). -/
def compute_digest {α : Type} (hash : List ℕ → α) (fs : FileSystem) (paths : List String) : α :=
  hash (digestStream fs paths)

/-! ### Queue poller — `main.py` `main` (lines 1313–1325) -/

inductive RunStatus where
  | queued
  | running
  | succeeded
  | failed
deriving DecidableEq, Repr

structure RunRow where
  id : String
  claimId : String
  createdAt : ℕ
  status : RunStatus
deriving DecidableEq, Repr

/-- Embeds `SELECT id, claim_id FROM runs WHERE status='queued' ORDER BY
created_at ASC LIMIT 1`. -/
def selectOldestQueued (runs : List RunRow) : Option RunRow :=
  ((runs.filter (fun r => r.status = RunStatus.queued)).insertionSort
    (fun a b => a.createdAt ≤ b.createdAt)).head?

/-- Embeds the claim step `UPDATE runs SET status='running' WHERE id=:id` —
note: no `AND status='queued'` condition appears in the source. -/
def markRunning (runs : List RunRow) (rid : String) : List RunRow :=
  runs.map (fun r => if r.id = rid then { r with status := RunStatus.running } else r)

/-- The conditional claim step as the spec words it, for comparison with
`markRunning`: transition to running only the row that still has
`status='queued'`, and report whether any row was claimed (`false` means the
poll must be retried). -/
def specClaimQueuedRun (runs : List RunRow) (rid : String) : List RunRow × Bool :=
  (runs.map (fun r =>
      if r.id = rid ∧ r.status = RunStatus.queued
      then { r with status := RunStatus.running } else r),
   runs.any (fun r => decide (r.id = rid ∧ r.status = RunStatus.queued)))

/-! ### Code extraction — `coding_competition.py` `_extract_python_code` (44–63)

Text is modelled as `List Char`.  `str.strip()` removes the ASCII whitespace
characters Python strips; `str.splitlines()` is modelled splitting on the
newline character (the line terminator occurring in model responses); the
Python substring test `"```" in stripped` is the `List.IsInfix` test. -/

/-- The characters removed by `str.strip()`. -/
def pyIsSpace (c : Char) : Bool :=
  c = ' ' || c = '\t' || c = '\n' || c = '\r' || c = '\x0b' || c = '\x0c'

/-- `s.strip()`: drop leading and trailing whitespace. -/
def pyStrip (s : List Char) : List Char :=
  ((s.dropWhile pyIsSpace).reverse.dropWhile pyIsSpace).reverse

/-- `s.splitlines()`: split at newlines; a trailing newline does not produce
a trailing empty line, and an empty string has no lines. -/
def splitlines : List Char → List (List Char)
  | [] => []
  | c :: s =>
    if c = '\n' then [] :: splitlines s
    else
      match splitlines s with
      | [] => [[c]]
      | l :: ls => (c :: l) :: ls

/-- The fence marker prefix. -/
def tripleBacktick : List Char := ['`', '`', '`']

/-- `line.strip().startswith("```")`. -/
def isMarker (line : List Char) : Bool :=
  decide (tripleBacktick <+: pyStrip line)

/-- The accumulation phase of the loop once `in_block` is set: keep lines
until the closing marker (`break`). -/
def fenceTake : List (List Char) → List (List Char)
  | [] => []
  | line :: rest => if isMarker line then [] else line :: fenceTake rest

/-- The whole `for line in lines` loop: skip until the opening marker
(`continue`), then accumulate until the closing marker. -/
def fenceAccum : List (List Char) → List (List Char)
  | [] => []
  | line :: rest => if isMarker line then fenceTake rest else fenceAccum rest

/-- The fenced body as the spec describes it: the lines strictly between the
first fence-marker line and the next fence-marker line (or the end). -/
def fencedBody (lines : List (List Char)) : List (List Char) :=
  (((lines.dropWhile (fun l => !isMarker l)).drop 1).takeWhile (fun l => !isMarker l))

/-- Embeds `_extract_python_code(response)`: strip the response; return it as
is when it has no "```" substring; otherwise run the fence loop and return
the joined accumulated body, stripped, when the accumulator is nonempty, else
the stripped response. -/
def pyExtract (response : List Char) : List Char :=
  let stripped := pyStrip response
  if ¬ (tripleBacktick <:+: stripped) then stripped
  else
    let acc := fenceAccum (splitlines stripped)
    if acc ≠ [] then pyStrip (List.intercalate ['\n'] acc) else stripped

/-! ### Tournament evaluator — `coding_competition.py` `run_coding_competition`
(343–568) and `_evaluate` (389–425)

Each (task, model) unit performs a provider call and a sandboxed test run,
both external effects; one unit's combined outcome — either a value or a
raised exception (its `str`) — is supplied by the `oracle`, keyed by the
task's position among the active tasks and the comparator index (`none` for
the primary model, mirroring the source's `comparator_index = -1,
is_primary = True`).  The bounded thread pool resolves every submitted
future, and `as_completed` files each unit's tuple into its slot, so the
collection phase is the filling of all slots. -/

structure ModelInvocation where
  model : String
  provider : String
  response : String
  inputTokens : ℕ
  outputTokens : ℕ
  latency : ℚ
deriving DecidableEq, Repr

structure TaskResult where
  taskId : String
  success : Bool
  testLatency : ℚ
  stderr : Option String
deriving DecidableEq, Repr

structure CodingTask where
  id : String
  prompt : String
deriving DecidableEq, Repr

structure ModelCfg where
  name : String
  provider : String
deriving DecidableEq, Repr

/-- Embeds `_evaluate`: any exception from `_call_model`/`_run_tests` is
caught and converted into an empty invocation plus a failed `TaskResult`
carrying `str(exc)[:500]` as stderr. -/
def evaluateUnit (oracle : ℕ → Option ℕ → Except String (ModelInvocation × TaskResult))
    (task : CodingTask) (cfg : ModelCfg) (pos : ℕ) (comp : Option ℕ) :
    ModelInvocation × TaskResult :=
  match oracle pos comp with
  | Except.ok v => v
  | Except.error e =>
    (⟨cfg.name, cfg.provider, "", 0, 0, 0⟩, ⟨task.id, false, 0, some (e.take 500)⟩)

/-- One model's entry in a per-task record. -/
structure UnitRecord where
  model : String
  provider : String
  success : Bool
  stderr : Option String
  inputTokens : ℕ
  outputTokens : ℕ
  latency : ℚ
  testLatency : ℚ
deriving DecidableEq, Repr

def mkUnitRecord (v : ModelInvocation × TaskResult) : UnitRecord :=
  ⟨v.1.model, v.1.provider, v.2.success, v.2.stderr, v.1.inputTokens,
   v.1.outputTokens, v.1.latency, v.2.testLatency⟩

structure TaskRecord where
  taskId : String
  primary : UnitRecord
  comparators : List UnitRecord
deriving DecidableEq, Repr

structure BaselineSummary where
  passed : ℕ
  attempted : ℕ
  passRate : ℚ
deriving DecidableEq, Repr

structure ComparatorSummary where
  model : String
  provider : String
  passed : ℕ
  attempted : ℕ
  inputTokens : ℕ
  outputTokens : ℕ
  latencies : List ℚ
  passRate : ℚ
  avgLatency : ℚ
deriving DecidableEq, Repr

structure CompetitionOutput where
  baseline : BaselineSummary
  comparators : List ComparatorSummary
  tasks : List TaskRecord
deriving DecidableEq, Repr

/-- Fallback slot value used only to read a filled `Option` slot. -/
def emptyUnit : ModelInvocation × TaskResult :=
  (⟨"", "", "", 0, 0, 0⟩, ⟨"", false, 0, none⟩)

/-- Embeds `run_coding_competition`: guard on empty task/comparator lists,
keep the tasks with a prompt, run every (task, model) unit, check that every
slot is present (a missing slot is a hard incomplete-tournament error), then
aggregate the per-task records and the baseline/comparator summaries. -/
def run_coding_competition (tasks : List CodingTask) (primaryCfg : ModelCfg)
    (comparatorCfgs : List ModelCfg)
    (oracle : ℕ → Option ℕ → Except String (ModelInvocation × TaskResult)) :
    Except String CompetitionOutput :=
  if tasks = [] then Except.error "no tasks available for coding competition"
  else if comparatorCfgs = [] then Except.error "comparators required for coding competition"
  else
    let active := tasks.filter (fun t => t.prompt ≠ "")
    if active = [] then Except.error "no valid prompts available for coding competition"
    else
      let numTasks := active.length
      let numComparators := comparatorCfgs.length
      let primarySlots : List (Option (ModelInvocation × TaskResult)) :=
        (List.range numTasks).map fun i =>
          some (evaluateUnit oracle (active.getD i ⟨"", ""⟩) primaryCfg i none)
      let comparatorSlots : List (List (Option (ModelInvocation × TaskResult))) :=
        (List.range numTasks).map fun i =>
          (List.range numComparators).map fun k =>
            some (evaluateUnit oracle (active.getD i ⟨"", ""⟩)
              (comparatorCfgs.getD k ⟨"", ""⟩) i (some k))
      if primarySlots.any (fun s => s.isNone) then
        Except.error "primary model evaluation incomplete"
      else if comparatorSlots.any (fun row => row.any (fun s => s.isNone)) then
        Except.error "comparator evaluation incomplete"
      else
        let perTask : List TaskRecord :=
          (List.range numTasks).map fun i =>
            { taskId := (active.getD i ⟨"", ""⟩).id,
              primary := mkUnitRecord (((primarySlots.getD i none).getD emptyUnit)),
              comparators := (comparatorSlots.getD i []).map fun s =>
                mkUnitRecord (s.getD emptyUnit) }
        let primaryPassed :=
          ((List.range numTasks).filter fun i =>
            (((primarySlots.getD i none).getD emptyUnit)).2.success).length
        let baseline : BaselineSummary :=
          { passed := primaryPassed,
            attempted := numTasks,
            passRate := if numTasks = 0 then 0 else (primaryPassed : ℚ) / (numTasks : ℚ) }
        let comparatorOutputs : List ComparatorSummary :=
          (List.range numComparators).map fun k =>
            let cfg := comparatorCfgs.getD k ⟨"", ""⟩
            let col := (List.range numTasks).map fun i =>
              ((comparatorSlots.getD i []).getD k none).getD emptyUnit
            let attempted := col.length
            let passed := (col.filter fun v => v.2.success).length
            let lats := col.map fun v => v.1.latency
            let attemptedOrOne := if attempted = 0 then 1 else attempted
            { model := cfg.name,
              provider := cfg.provider,
              passed := passed,
              attempted := attempted,
              inputTokens := (col.map fun v => v.1.inputTokens).sum,
              outputTokens := (col.map fun v => v.1.outputTokens).sum,
              latencies := lats,
              passRate := (passed : ℚ) / (attemptedOrOne : ℚ),
              avgLatency := if lats = [] then 0 else lats.sum / (attemptedOrOne : ℚ) }
        Except.ok { baseline := baseline, comparators := comparatorOutputs, tasks := perTask }

/-! ### Run dispatch — `main.py` `process_one` (222–1308)

`process_one` is modelled by the sequence of database effects it performs for
the run: terminal status updates (`UPDATE runs SET status=…`, issued by the
success paths, `_mark_underspecified`, `_record_failure`, `_guard_cost` and
the missing-context path), trace inserts (`record_trace`), artifact inserts,
`validation_count` increments and commits.  The branch taken depends only on
the run's loaded context (domain, task, metric, settings, model config) and
on the handlers' outcomes, which are external effects supplied as oracles:
for each handler, success or the caught exception class (for the agents and
computer-use suites the success payload says whether an artifact was
produced). -/

inductive FinalStatus where
  | succeeded
  | failed
deriving DecidableEq, Repr

inductive DbEvent where
  | statusUpdate (s : FinalStatus)
  | traceInsert
  | artifactInsert
  | validationInc
  | commit
deriving DecidableEq, Repr

/-- `task.lower()` / `domain` comparisons are on lowercased ASCII. -/
def pyLower (s : String) : String :=
  s.map Char.toLower

/-- The Python substring test `pat in s`. -/
def strContains (s pat : String) : Bool :=
  decide (pat.data <:+: s.data)

/-- The run context loaded by `_load_run_context` plus the settings values
`process_one` reads from it. -/
structure RunContext where
  domain : Option String
  task : Option String
  metric : Option String
  requiresComparison : Bool
  requiresMultimodal : Bool
  comparativeSuite : Option String
  telemetryPromptsPresent : Bool
  telemetryComparatorsPresent : Bool
  comparativeConfigsPresent : Bool
  swebenchPredictionsPresent : Bool
  budgetRaw : Option BudgetRaw

/-- The external handler outcomes one `process_one` call can observe:
`Except.error` is the exception class the corresponding `except` clause
catches. -/
structure HandlerOracles where
  efficiency : Except Unit Unit
  codingCompetition : Except Unit Unit
  vision : Except Unit Unit
  gsm8k : Except Unit Unit
  swebench : Except Unit Unit
  humaneval : Except Unit Unit
  agents : Except Unit Bool
  computerUse : Except Unit Bool

/-- `_record_failure`: one `UPDATE runs SET status='failed' …` plus commit —
and no trace insert. -/
def recordFailureEvents : List DbEvent :=
  [DbEvent.statusUpdate FinalStatus.failed, DbEvent.commit]

/-- `_mark_underspecified`: one `UPDATE runs SET status='succeeded' …
status_label='Underspecified'` plus commit. -/
def markUnderspecifiedEvents : List DbEvent :=
  [DbEvent.statusUpdate FinalStatus.succeeded, DbEvent.commit]

/-- The success-path tail shared by the real harness branches: terminal
update, `record_trace`, `_increment_validation_count`, commit. -/
def successEvents : List DbEvent :=
  [DbEvent.statusUpdate FinalStatus.succeeded, DbEvent.traceInsert,
   DbEvent.validationInc, DbEvent.commit]

/-- `_guard_cost` as performed inside `process_one`: on a guard failure it
updates the run to failed (reason `missing_budget` or `budget_exceeded`) and
commits, returning `False`. -/
def guardEvents (expectedCost budget : ℚ) : List DbEvent × Bool :=
  match guardCost expectedCost budget with
  | GuardDecision.allow => ([], true)
  | GuardDecision.failMissingBudget => (recordFailureEvents, false)
  | GuardDecision.failBudgetExceeded => (recordFailureEvents, false)

/-- Embeds `process_one`'s branch structure, in source order, as the list of
database effects performed.  `none` is the missing-context path (`ctx is
None`: plain failed update and commit).  `ESTIMATED_LLM_COSTS` is `0.02` for
the coding, reasoning-math and vision domains. -/
def process_one (ctxOpt : Option RunContext) (o : HandlerOracles) : List DbEvent :=
  match ctxOpt with
  | none => [DbEvent.statusUpdate FinalStatus.failed, DbEvent.commit]
  | some ctx =>
    let domain := ctx.domain.getD "coding"
    let task := ctx.task.getD ""
    let budget := coerce_budget ctx.budgetRaw
    if domain = "efficiency" ∨ ctx.metric = some "token_delta" then
      if ¬ (ctx.telemetryPromptsPresent ∧ ctx.telemetryComparatorsPresent) then
        markUnderspecifiedEvents ++ [DbEvent.traceInsert]
      else
        match o.efficiency with
        | Except.error _ => markUnderspecifiedEvents ++ [DbEvent.traceInsert]
        | Except.ok _ => successEvents
    else if domain = "coding" ∧ ctx.comparativeSuite = some "coding_competition" then
      if ¬ ctx.comparativeConfigsPresent then
        markUnderspecifiedEvents ++ [DbEvent.traceInsert]
      else
        match o.codingCompetition with
        | Except.error _ => recordFailureEvents
        | Except.ok _ => successEvents
    else if domain = "vision" then
      let g := guardEvents (2/100) budget
      if ¬ g.2 then g.1
      else
        match o.vision with
        | Except.error _ => markUnderspecifiedEvents ++ [DbEvent.traceInsert]
        | Except.ok _ => successEvents
    else if ctx.requiresMultimodal then
      markUnderspecifiedEvents ++ [DbEvent.traceInsert]
    else if domain = "reasoning-math" ∧ (pyLower task).startsWith "gsm8k" then
      let g := guardEvents (2/100) budget
      if ¬ g.2 then g.1
      else
        match o.gsm8k with
        | Except.ok _ => successEvents
        | Except.error _ => recordFailureEvents
    else if domain = "coding" ∧ strContains (pyLower task) "swe-bench" then
      if ¬ ctx.swebenchPredictionsPresent then
        markUnderspecifiedEvents ++ [DbEvent.traceInsert]
      else
        match o.swebench with
        | Except.error _ => recordFailureEvents
        | Except.ok _ => successEvents
    else if domain = "coding" ∧ (pyLower task).startsWith "humaneval" then
      let g := guardEvents (2/100) budget
      if ¬ g.2 then g.1
      else
        match o.humaneval with
        | Except.ok _ => successEvents
        | Except.error _ => recordFailureEvents
    else if domain = "agents" ∧ (pyLower task).startsWith "cagent" then
      match o.agents with
      | Except.ok hasArtifact =>
        [DbEvent.statusUpdate FinalStatus.succeeded] ++
          (if hasArtifact then [DbEvent.artifactInsert] else []) ++
          [DbEvent.traceInsert, DbEvent.validationInc, DbEvent.commit]
      | Except.error _ => recordFailureEvents
    else if domain = "computer-use" ∧ (pyLower task).startsWith "cgui" then
      match o.computerUse with
      | Except.ok hasArtifact =>
        [DbEvent.statusUpdate FinalStatus.succeeded] ++
          (if hasArtifact then [DbEvent.artifactInsert] else []) ++
          [DbEvent.traceInsert, DbEvent.validationInc, DbEvent.commit]
      | Except.error _ => recordFailureEvents
    else
      [DbEvent.statusUpdate FinalStatus.succeeded, DbEvent.artifactInsert,
       DbEvent.traceInsert, DbEvent.validationInc, DbEvent.commit]

/-- Whether an event is a terminal status update. -/
def isStatusUpdate : DbEvent → Bool
  | DbEvent.statusUpdate _ => true
  | _ => false

/-- The terminal status set by the (unique) status update of an event list. -/
def firstStatus (es : List DbEvent) : Option FinalStatus :=
  es.findSome? fun e =>
    match e with
    | DbEvent.statusUpdate s => some s
    | _ => none

/-! ## Theorems -/

/-- Helper: unfold one retry-loop step with at least one attempt remaining. -/
theorem retryGo_succ {μ : Type} (base : ℚ) (jitter : ℕ → ℚ) (call : ℕ → AttemptOutcome μ)
    (attempt r : ℕ) :
    retryGo base jitter call attempt (r + 1) =
      match call attempt with
      | AttemptOutcome.ok m => (Except.ok m, [])
      | AttemptOutcome.raise e =>
        if isRetriable e ∧ 1 ≤ r then
          ((retryGo base jitter call (attempt + 1) r).1,
            backoffDelay base jitter attempt :: (retryGo base jitter call (attempt + 1) r).2)
        else (Except.error e, []) := by
  rw [retryGo]

/-- Helper: a run of `k` retriable failures followed by a success returns the
success with one backoff sleep per failed attempt, provided the cap leaves
room (`k + 1 ≤ rem`). -/
theorem retryGo_run {μ : Type} (base : ℚ) (jitter : ℕ → ℚ) (call : ℕ → AttemptOutcome μ)
    (m : μ) (k : ℕ) :
    ∀ (attempt rem : ℕ),
      (∀ j < k, ∃ e, call (attempt + j) = AttemptOutcome.raise e ∧ isRetriable e = true) →
      call (attempt + k) = AttemptOutcome.ok m →
      k + 1 ≤ rem →
      retryGo base jitter call attempt rem =
        (Except.ok m, (List.range k).map fun j => backoffDelay base jitter (attempt + j)) := by
  induction k with
  | zero =>
    intro attempt rem _ hok hrem
    rw [Nat.add_zero] at hok
    obtain ⟨r, rfl⟩ : ∃ r, rem = r + 1 := ⟨rem - 1, by omega⟩
    rw [retryGo_succ, hok]
    rfl
  | succ k ih =>
    intro attempt rem hfail hok hrem
    obtain ⟨r, rfl⟩ : ∃ r, rem = r + 1 := ⟨rem - 1, by omega⟩
    obtain ⟨e, he, hret⟩ := hfail 0 (Nat.succ_pos k)
    rw [Nat.add_zero] at he
    have h1r : 1 ≤ r := by omega
    rw [retryGo_succ, he]
    dsimp only
    rw [if_pos ⟨hret, h1r⟩]
    have hfail' : ∀ j < k, ∃ e, call (attempt + 1 + j) = AttemptOutcome.raise e ∧
        isRetriable e = true := by
      intro j hj
      have h := hfail (j + 1) (by omega)
      rwa [show attempt + (j + 1) = attempt + 1 + j by ring] at h
    have hok' : call (attempt + 1 + k) = AttemptOutcome.ok m := by
      rwa [show attempt + (k + 1) = attempt + 1 + k by ring] at hok
    rw [ih (attempt + 1) r hfail' hok' (by omega)]
    refine congrArg _ ?_
    rw [List.range_succ_eq_map, List.map_cons, List.map_map]
    refine congrArg₂ _ (by rw [Nat.add_zero]) ?_
    refine List.map_congr_left fun j _ => ?_
    simp only [Function.comp_apply]
    refine congrArg _ (by omega)

/-- C4: the cost guard allows a run when the expected cost is nonpositive,
fails it with `missing_budget` when the budget is nonpositive but the cost is
positive, fails it with `budget_exceeded` when the positive budget is below
the cost, and allows it otherwise; in particular
`guardCost(0.05, 0.02) = budget_exceeded`, `guardCost(0.05, 0) =
missing_budget` and `guardCost(0, 0) = allow`. -/
theorem guardCost_spec :
    (∀ e b : ℚ, e ≤ 0 → guardCost e b = GuardDecision.allow) ∧
    (∀ e b : ℚ, b ≤ 0 → 0 < e → guardCost e b = GuardDecision.failMissingBudget) ∧
    (∀ e b : ℚ, 0 < b → b < e → guardCost e b = GuardDecision.failBudgetExceeded) ∧
    (∀ e b : ℚ, 0 < e → 0 < b → e ≤ b → guardCost e b = GuardDecision.allow) ∧
    guardCost (5/100) (2/100) = GuardDecision.failBudgetExceeded ∧
    guardCost (5/100) 0 = GuardDecision.failMissingBudget ∧
    guardCost 0 0 = GuardDecision.allow := by
  refine ⟨?_, ?_, ?_, ?_, ?_, ?_, ?_⟩
  · intro e b he
    unfold guardCost
    rw [if_pos he]
  · intro e b hb he
    unfold guardCost
    rw [if_neg (by linarith), if_pos hb]
  · intro e b hb hlt
    unfold guardCost
    rw [if_neg (by linarith), if_neg (by linarith), if_neg (by linarith)]
  · intro e b he hb hle
    unfold guardCost
    rw [if_neg (by linarith), if_neg (by linarith), if_pos hle]
  · norm_num [guardCost]
  · norm_num [guardCost]
  · norm_num [guardCost]

/-- Witness for `guardCost_spec` at a concrete input. -/
theorem guardCost_spec_witness :
    (0 : ℚ) ≤ 0 ∧ guardCost 0 5 = GuardDecision.allow :=
  ⟨le_refl 0, guardCost_spec.1 0 5 (le_refl 0)⟩

/-- C10: budget coercion maps an absent key, a JSON null and an unparseable
string all to `0.0`, so with any positive expected cost the guard fails the
run with `missing_budget` rather than raising or treating the budget as
valid. -/
theorem coerce_budget_spec :
    coerce_budget none = 0 ∧
    coerce_budget (some BudgetRaw.null) = 0 ∧
    (∀ s : String, coerce_budget (some (BudgetRaw.strBad s)) = 0) ∧
    (∀ (b : Option BudgetRaw) (e : ℚ),
      (b = none ∨ b = some BudgetRaw.null ∨ ∃ s, b = some (BudgetRaw.strBad s)) →
      0 < e → guardCost e (coerce_budget b) = GuardDecision.failMissingBudget) := by
  refine ⟨rfl, rfl, fun s => rfl, ?_⟩
  intro b e hb he
  have h0 : coerce_budget b = 0 := by
    rcases hb with h | h | ⟨s, h⟩ <;> subst h <;> rfl
  rw [h0]
  unfold guardCost
  rw [if_neg (by linarith), if_pos (le_refl 0)]

/-- Witness for `coerce_budget_spec` at a concrete input. -/
theorem coerce_budget_spec_witness :
    ((some BudgetRaw.null = none ∨ some BudgetRaw.null = some BudgetRaw.null ∨
        ∃ s, some BudgetRaw.null = some (BudgetRaw.strBad s)) ∧ (0 : ℚ) < 1) ∧
    guardCost 1 (coerce_budget (some BudgetRaw.null)) = GuardDecision.failMissingBudget :=
  ⟨⟨Or.inr (Or.inl rfl), by norm_num⟩,
   coerce_budget_spec.2.2.2 (some BudgetRaw.null) 1 (Or.inr (Or.inl rfl)) (by norm_num)⟩

/-- A run row already finished by another worker. -/
def runSucceededRow : RunRow :=
  ⟨"r1", "c1", 0, RunStatus.succeeded⟩

/-- C1 counterexample: the source's claim update has no `status='queued'`
condition, so on a run whose status is no longer queued it is not a no-op —
it moves a `succeeded` run back to `running`. -/
theorem claim_update_not_conditional_cex :
    markRunning [runSucceededRow] "r1" = [⟨"r1", "c1", 0, RunStatus.running⟩] ∧
    markRunning [runSucceededRow] "r1" ≠ [runSucceededRow] ∧
    (specClaimQueuedRun [runSucceededRow] "r1").1 = [runSucceededRow] ∧
    (specClaimQueuedRun [runSucceededRow] "r1").2 = false := by
  refine ⟨by decide, by decide, by decide, by decide⟩

/-- C1 amended: the poller's claim step is an unconditional status update —
every row with the selected id is set to `running` whatever its previous
status (no no-op and no retry when the run was already claimed or terminal),
and all other rows are untouched. -/
theorem claim_update_unconditional (runs : List RunRow) (rid : String) :
    (markRunning runs rid).length = runs.length ∧
    (∀ r ∈ markRunning runs rid, r.id = rid → r.status = RunStatus.running) ∧
    (∀ r ∈ markRunning runs rid, r.id ≠ rid → r ∈ runs) ∧
    (∀ r ∈ runs, r.id = rid → { r with status := RunStatus.running } ∈ markRunning runs rid) := by
  refine ⟨by simp [markRunning], ?_, ?_, ?_⟩
  · intro r hr hid
    obtain ⟨r0, hr0, rfl⟩ := List.mem_map.mp hr
    by_cases h : r0.id = rid
    · rw [if_pos h]
    · rw [if_neg h] at hid
      exact absurd hid h
  · intro r hr hid
    obtain ⟨r0, hr0, rfl⟩ := List.mem_map.mp hr
    by_cases h : r0.id = rid
    · rw [if_pos h] at hid
      exact absurd h hid
    · rw [if_neg h]
      exact hr0
  · intro r hr hid
    exact List.mem_map.mpr ⟨r, hr, by rw [if_pos hid]⟩

/-- Witness for `claim_update_unconditional` at a concrete input. -/
theorem claim_update_unconditional_witness :
    runSucceededRow ∈ [runSucceededRow] ∧ runSucceededRow.id = "r1" ∧
    { runSucceededRow with status := RunStatus.running } ∈ markRunning [runSucceededRow] "r1" :=
  ⟨List.mem_singleton_self _, rfl,
   (claim_update_unconditional [runSucceededRow] "r1").2.2.2 runSucceededRow
     (List.mem_singleton_self _) rfl⟩

/-- C2 counterexample: status 528 is not in the source's retriable set, so a
failure with status 528 (and no transient exception type) is raised
immediately, with no backoff sleep — the 521–529 range is not fully covered. -/
theorem retriable_528_cex :
    (528 : ℕ) ∉ RETRIABLE_STATUS ∧
    isRetriable ⟨some 528, false⟩ = false ∧
    providerCall (μ := Unit) 1 (fun _ => 0)
        (fun _ => AttemptOutcome.raise ⟨some 528, false⟩) 5 =
      (Except.error ⟨some 528, false⟩, []) := by
  refine ⟨by decide, by decide, rfl⟩

/-- C2 amended: the retriable statuses are exactly 408, 409, 425, 429, 500,
502, 503, 504 and 521–529 *except 528*; known transient exception types are
always retriable; each retry sleeps `base · 2^attempt + jitter`; a
non-retriable first failure is raised immediately with no sleep; and with
cap 5, three retriable failures followed by a success return the success
after exactly three backoff sleeps. -/
theorem retry_policy_spec :
    (∀ s : ℕ, s ∈ RETRIABLE_STATUS ↔
      (s = 408 ∨ s = 409 ∨ s = 425 ∨ s = 429 ∨ s = 500 ∨ s = 502 ∨ s = 503 ∨ s = 504 ∨
       (521 ≤ s ∧ s ≤ 529 ∧ s ≠ 528))) ∧
    (∀ st : Option ℕ, isRetriable ⟨st, true⟩ = true) ∧
    (∀ (base : ℚ) (jitter : ℕ → ℚ) (a : ℕ),
      backoffDelay base jitter a = base * 2 ^ a + jitter a) ∧
    (∀ (μ : Type) (base : ℚ) (jitter : ℕ → ℚ) (call : ℕ → AttemptOutcome μ)
       (cap : ℕ) (e : ProviderError), 1 ≤ cap →
      call 0 = AttemptOutcome.raise e → isRetriable e = false →
      providerCall base jitter call cap = (Except.error e, [])) ∧
    (∀ (μ : Type) (base : ℚ) (jitter : ℕ → ℚ) (call : ℕ → AttemptOutcome μ)
       (e₀ e₁ e₂ : ProviderError) (m : μ),
      call 0 = AttemptOutcome.raise e₀ → isRetriable e₀ = true →
      call 1 = AttemptOutcome.raise e₁ → isRetriable e₁ = true →
      call 2 = AttemptOutcome.raise e₂ → isRetriable e₂ = true →
      call 3 = AttemptOutcome.ok m →
      providerCall base jitter call 5 =
        (Except.ok m, [backoffDelay base jitter 0, backoffDelay base jitter 1,
                       backoffDelay base jitter 2])) := by
  refine ⟨?_, ?_, ?_, ?_, ?_⟩
  · intro s
    simp only [RETRIABLE_STATUS, List.mem_cons, List.not_mem_nil, or_false]
    omega
  · intro st
    simp [isRetriable]
  · intro base jitter a
    rfl
  · intro μ base jitter call cap e hcap hc hr
    obtain ⟨n, rfl⟩ : ∃ n, cap = n + 1 := ⟨cap - 1, by omega⟩
    rw [providerCall, retryGo_succ, hc]
    simp [hr]
  · intro μ base jitter call e₀ e₁ e₂ m hc0 hr0 hc1 hr1 hc2 hr2 hc3
    have h := retryGo_run base jitter call m 3 0 5 ?_ ?_ (by norm_num)
    · rw [providerCall, h]
      refine congrArg _ ?_
      simp [List.range_succ]
    · intro j hj
      interval_cases j
      · exact ⟨e₀, by simpa using hc0, hr0⟩
      · exact ⟨e₁, by simpa using hc1, hr1⟩
      · exact ⟨e₂, by simpa using hc2, hr2⟩
    · simpa using hc3

/-- Witness for `retry_policy_spec` at a concrete input: three 429 failures,
then success, under cap 5. -/
theorem retry_policy_spec_witness :
    providerCall (μ := Unit) 1 (fun _ => 0)
      (fun a => if a < 3 then AttemptOutcome.raise ⟨some 429, false⟩ else AttemptOutcome.ok ()) 5 =
    (Except.ok (), [1, 2, 4]) := by
  have h := retry_policy_spec.2.2.2.2 Unit 1 (fun _ => 0)
    (fun a => if a < 3 then AttemptOutcome.raise ⟨some 429, false⟩ else AttemptOutcome.ok ())
    ⟨some 429, false⟩ ⟨some 429, false⟩ ⟨some 429, false⟩ ()
    (by norm_num) (by decide) (by norm_num) (by decide) (by norm_num) (by decide) (by norm_num)
  rw [h]
  norm_num [backoffDelay]

/-- Helper: with a nonempty 0/1 outcome vector and `n ≥ 1`, every resample
mean lies in `[0, 1]`. -/
theorem resampleMeans_bounds (gen : ℕ → ℕ → ℕ) (values : List ℚ) (n reps seed : ℕ)
    (hvals : ∀ v ∈ values, v = 0 ∨ v = 1) (hne : values ≠ []) (hn : 1 ≤ n) :
    ∀ m ∈ resampleMeans gen values n reps seed, 0 ≤ m ∧ m ≤ 1 := by
  intro m hm
  obtain ⟨r, _, rfl⟩ := List.mem_map.mp hm
  have hchoice : ∀ x ∈ (List.range n).map (fun i => pyChoice gen seed (r * n + i) values),
      0 ≤ x ∧ x ≤ 1 := by
    intro x hx
    obtain ⟨i, _, rfl⟩ := List.mem_map.mp hx
    have hpos : 0 < values.length := List.length_pos.mpr hne
    have hidx : gen seed (r * n + i) % values.length < values.length := Nat.mod_lt _ hpos
    rw [pyChoice, List.getD_eq_getElem values 0 hidx]
    rcases hvals _ (List.getElem_mem hidx) with h | h <;> rw [h] <;> norm_num
  have hsum0 : 0 ≤ ((List.range n).map (fun i => pyChoice gen seed (r * n + i) values)).sum :=
    List.sum_nonneg fun x hx => (hchoice x hx).1
  have hsum1 : ((List.range n).map (fun i => pyChoice gen seed (r * n + i) values)).sum ≤ n := by
    have h := List.sum_le_card_nsmul
      ((List.range n).map (fun i => pyChoice gen seed (r * n + i) values)) 1
      (fun x hx => (hchoice x hx).2)
    simpa using h
  have hnq : (0 : ℚ) < (n : ℚ) := by exact_mod_cast Nat.lt_of_lt_of_le Nat.zero_lt_one hn
  constructor
  · exact div_nonneg hsum0 (le_of_lt hnq)
  · rw [div_le_one hnq]
    exact hsum1

/-- Helper: the sorted means list has one entry per resample. -/
theorem sortedMeans_length (gen : ℕ → ℕ → ℕ) (values : List ℚ) (n reps seed : ℕ) :
    (sortedMeans gen values n reps seed).length = reps := by
  rw [sortedMeans, List.length_insertionSort, resampleMeans, List.length_map, List.length_range]

/-- C5: `bootstrap_ci` is deterministic in (values, n, reps, seed); it returns
the entries of the sorted resample means at the truncated 2.5th and 97.5th
percentile indices; and for a nonempty 0/1 outcome vector with `n ≥ 1` and
`reps ≥ 1` the returned pair satisfies `lower ≤ upper` with both bounds in
`[0, 1]`. -/
theorem bootstrap_ci_spec (gen : ℕ → ℕ → ℕ) (values : List ℚ) (n reps seed : ℕ)
    (hvals : ∀ v ∈ values, v = 0 ∨ v = 1) (hne : values ≠ []) (hn : 1 ≤ n) (hreps : 1 ≤ reps) :
    (∀ values₂ n₂ reps₂ seed₂, values₂ = values → n₂ = n → reps₂ = reps → seed₂ = seed →
      bootstrap_ci gen values₂ n₂ reps₂ seed₂ = bootstrap_ci gen values n reps seed) ∧
    (bootstrap_ci gen values n reps seed).1 =
      (sortedMeans gen values n reps seed).getD (25 * reps / 1000) 0 ∧
    (bootstrap_ci gen values n reps seed).2 =
      (sortedMeans gen values n reps seed).getD (975 * reps / 1000) 0 ∧
    (bootstrap_ci gen values n reps seed).1 ≤ (bootstrap_ci gen values n reps seed).2 ∧
    0 ≤ (bootstrap_ci gen values n reps seed).1 ∧
    (bootstrap_ci gen values n reps seed).2 ≤ 1 := by
  have hlen := sortedMeans_length gen values n reps seed
  have hsorted : List.Sorted (· ≤ ·) (sortedMeans gen values n reps seed) :=
    List.sorted_insertionSort (· ≤ ·) (resampleMeans gen values n reps seed)
  have hHi : 975 * reps / 1000 < reps := by
    rw [Nat.div_lt_iff_lt_mul (by norm_num : 0 < 1000)]
    omega
  have hLo : 25 * reps / 1000 ≤ 975 * reps / 1000 :=
    Nat.div_le_div_right (by omega)
  have hHiLen : 975 * reps / 1000 < (sortedMeans gen values n reps seed).length := by
    rw [hlen]; exact hHi
  have hLoLen : 25 * reps / 1000 < (sortedMeans gen values n reps seed).length := by
    omega
  have hmemBound : ∀ m ∈ sortedMeans gen values n reps seed, 0 ≤ m ∧ m ≤ 1 := by
    intro m hm
    exact resampleMeans_bounds gen values n reps seed hvals hne hn m
      ((List.mem_insertionSort (· ≤ ·)).mp hm)
  have h1 : (bootstrap_ci gen values n reps seed).1 =
      (sortedMeans gen values n reps seed).getD (25 * reps / 1000) 0 := rfl
  have h2 : (bootstrap_ci gen values n reps seed).2 =
      (sortedMeans gen values n reps seed).getD (975 * reps / 1000) 0 := rfl
  refine ⟨?_, h1, h2, ?_, ?_, ?_⟩
  · intro values₂ n₂ reps₂ seed₂ hv hn2 hr2 hs2
    rw [hv, hn2, hr2, hs2]
  · rw [h1, h2, List.getD_eq_getElem _ 0 hLoLen, List.getD_eq_getElem _ 0 hHiLen]
    exact hsorted.rel_get_of_le (a := ⟨_, hLoLen⟩) (b := ⟨_, hHiLen⟩) hLo
  · rw [h1, List.getD_eq_getElem _ 0 hLoLen]
    exact (hmemBound _ (List.getElem_mem hLoLen)).1
  · rw [h2, List.getD_eq_getElem _ 0 hHiLen]
    exact (hmemBound _ (List.getElem_mem hHiLen)).2

/-- Witness for `bootstrap_ci_spec` at a concrete input. -/
theorem bootstrap_ci_spec_witness :
    (bootstrap_ci (fun _ _ => 0) [1, 0] 2 4 0).1 ≤ (bootstrap_ci (fun _ _ => 0) [1, 0] 2 4 0).2 :=
  (bootstrap_ci_spec (fun _ _ => 0) [1, 0] 2 4 0
    (by intro v hv; rcases List.mem_cons.mp hv with h | h
        · right; exact h
        · left; simpa using h)
    (by simp) (by norm_num) (by norm_num)).2.2.2.1

/-- Helper: sorting is determined by the multiset of elements. -/
theorem insertionSort_eq_of_perm {l l' : List String} (h : l.Perm l') :
    l.insertionSort (· ≤ ·) = l'.insertionSort (· ≤ ·) :=
  List.eq_of_perm_of_sorted
    ((List.perm_insertionSort _ l).trans (h.trans (List.perm_insertionSort _ l').symm))
    (List.sorted_insertionSort _ l) (List.sorted_insertionSort _ l')

/-- Helper: pointwise segment-length bound for flattened maps. -/
theorem flatten_map_length_le {α β : Type} (g g' : α → List β)
    (hle : ∀ q, (g q).length ≤ (g' q).length) :
    ∀ L : List α, ((L.map g).flatten).length ≤ ((L.map g').flatten).length := by
  intro L
  induction L with
  | nil => simp
  | cons x t ih =>
    simp only [List.map_cons, List.flatten_cons, List.length_append]
    exact Nat.add_le_add (hle x) ih

/-- Helper: if one segment strictly grows and none shrinks, the flattened map
strictly grows wherever that segment occurs. -/
theorem flatten_map_length_lt {α β : Type} (g g' : α → List β) (p : α)
    (hoff : ∀ q, q ≠ p → g q = g' q) (hlt : (g p).length < (g' p).length) :
    ∀ L : List α, p ∈ L → ((L.map g).flatten).length < ((L.map g').flatten).length := by
  have hle : ∀ q, (g q).length ≤ (g' q).length := by
    intro q
    by_cases hq : q = p
    · subst hq; exact le_of_lt hlt
    · rw [hoff q hq]
  intro L hp
  induction L with
  | nil => cases hp
  | cons x t ih =>
    simp only [List.map_cons, List.flatten_cons, List.length_append]
    by_cases hx : x = p
    · subst hx
      exact Nat.add_lt_add_of_lt_of_le hlt (flatten_map_length_le g g' hle t)
    · rcases List.mem_cons.mp hp with h | h
      · exact absurd h.symm hx
      · rw [hoff x hx]
        exact Nat.add_lt_add_left (ih h) _

/-- Helper: if exactly the segments at `p` differ but have equal length, the
flattened maps differ wherever `p` occurs. -/
theorem flatten_map_ne_of_eq_length {α β : Type} (g g' : α → List β) (p : α)
    (hoff : ∀ q, q ≠ p → g q = g' q) (hlen : (g p).length = (g' p).length)
    (hne : g p ≠ g' p) :
    ∀ L : List α, p ∈ L → (L.map g).flatten ≠ (L.map g').flatten := by
  intro L hp
  induction L with
  | nil => cases hp
  | cons x t ih =>
    simp only [List.map_cons, List.flatten_cons]
    by_cases hx : x = p
    · subst hx
      intro hEq
      exact hne (List.append_inj hEq hlen).1
    · rcases List.mem_cons.mp hp with h | h
      · exact absurd h.symm hx
      · rw [hoff x hx]
        intro hEq
        exact ih h (List.append_cancel_left hEq)

/-- C6: the provenance digest is order-independent (any permutation of the
input file list hashes identically), the digest of an empty list is the fixed
hash of zero input, and — with the hash's collision-freeness modelled as
injectivity — changing any byte of any listed regular file's content changes
the digest. -/
theorem compute_digest_spec {α : Type} (hash : List ℕ → α) (fs : FileSystem) :
    (∀ paths paths' : List String, paths.Perm paths' →
      compute_digest hash fs paths = compute_digest hash fs paths') ∧
    compute_digest hash fs [] = hash [] ∧
    (∀ (paths : List String) (p : String) (fd fd' : FileData) (fs' : FileSystem),
      fs p = some fd → fs' p = some fd' → fd.isFile = true → fd'.isFile = true →
      fd.content ≠ fd'.content → (∀ q, q ≠ p → fs' q = fs q) → p ∈ paths →
      Function.Injective hash →
      compute_digest hash fs paths ≠ compute_digest hash fs' paths) := by
  refine ⟨?_, rfl, ?_⟩
  · intro paths paths' hperm
    unfold compute_digest digestStream resolve_paths
    rw [insertionSort_eq_of_perm (hperm.filter _)]
  · intro paths p fd fd' fs' hfsp hfs'p hfile hfile' hcontent hoff hmem hinj hEq
    have hstreams : digestStream fs paths = digestStream fs' paths := hinj hEq
    have hresolve : resolve_paths fs' paths = resolve_paths fs paths := by
      unfold resolve_paths
      refine List.filter_congr fun q _ => ?_
      by_cases hq : q = p
      · subst hq
        simp only [isRegularFile, hfsp, hfs'p]
        rw [hfile, hfile']
      · unfold isRegularFile
        rw [hoff q hq]
    have hseg_off : ∀ q, q ≠ p → fileSegment fs q = fileSegment fs' q := by
      intro q hq
      unfold fileSegment contentOf
      rw [hoff q hq]
    have hsegp : fileSegment fs p = strBytes ("FILE::" ++ pyBasename p) ++ fd.content := by
      unfold fileSegment contentOf
      rw [hfsp]
    have hsegp' : fileSegment fs' p = strBytes ("FILE::" ++ pyBasename p) ++ fd'.content := by
      unfold fileSegment contentOf
      rw [hfs'p]
    have hsegne : fileSegment fs p ≠ fileSegment fs' p := by
      rw [hsegp, hsegp']
      intro h
      exact hcontent (List.append_cancel_left h)
    have hpL : p ∈ (resolve_paths fs paths).insertionSort (· ≤ ·) := by
      refine (List.mem_insertionSort _).mpr ?_
      refine List.mem_filter.mpr ⟨hmem, ?_⟩
      unfold isRegularFile
      rw [hfsp]
      exact hfile
    rw [digestStream, digestStream, hresolve] at hstreams
    by_cases hl : (fileSegment fs p).length = (fileSegment fs' p).length
    · exact flatten_map_ne_of_eq_length (fileSegment fs) (fileSegment fs') p
        hseg_off hl hsegne _ hpL hstreams
    · have hlen := congrArg List.length hstreams
      rcases Nat.lt_or_ge (fileSegment fs p).length (fileSegment fs' p).length with h | h
      · exact absurd hlen (Nat.ne_of_lt (flatten_map_length_lt (fileSegment fs)
          (fileSegment fs') p hseg_off h _ hpL))
      · have hgt : (fileSegment fs' p).length < (fileSegment fs p).length :=
          lt_of_le_of_ne h (fun hh => hl hh.symm)
        exact absurd hlen.symm (Nat.ne_of_lt (flatten_map_length_lt (fileSegment fs')
          (fileSegment fs) p (fun q hq => (hseg_off q hq).symm) hgt _ hpL))

/-- Filesystem with one file `a` holding byte 0. -/
def fsContentA : FileSystem :=
  fun q => if q = "a" then some ⟨true, [0]⟩ else none

/-- Filesystem with one file `a` holding byte 1. -/
def fsContentB : FileSystem :=
  fun q => if q = "a" then some ⟨true, [1]⟩ else none

/-- Witness for `compute_digest_spec` at a concrete input: flipping the one
byte of the one listed file changes the digest. -/
theorem compute_digest_spec_witness :
    compute_digest id fsContentA ["a"] ≠ compute_digest id fsContentB ["a"] :=
  (compute_digest_spec id fsContentA).2.2 ["a"] "a" ⟨true, [0]⟩ ⟨true, [1]⟩ fsContentB
    (by simp [fsContentA]) (by simp [fsContentB]) rfl rfl (by decide)
    (by intro q hq; simp [fsContentA, fsContentB, hq]) (by simp) Function.injective_id

/-- C9: `compute_digest` silently drops paths that do not exist or are not
regular files — the digest of any path list equals the digest of its sublist
of existing regular files, and a list of only missing paths digests to the
empty-input hash. -/
theorem compute_digest_drops_missing {α : Type} (hash : List ℕ → α) (fs : FileSystem) :
    (∀ paths : List String, compute_digest hash fs paths =
      compute_digest hash fs (paths.filter (fun p => isRegularFile fs p))) ∧
    (∀ paths : List String, (∀ p ∈ paths, isRegularFile fs p = false) →
      compute_digest hash fs paths = hash []) := by
  constructor
  · intro paths
    unfold compute_digest digestStream resolve_paths
    rw [List.filter_filter]
    simp only [Bool.and_self]
  · intro paths h
    unfold compute_digest digestStream resolve_paths
    rw [List.filter_eq_nil_iff.mpr (by intro a ha; simp [h a ha])]
    rfl

/-- Witness for `compute_digest_drops_missing` at a concrete input. -/
theorem compute_digest_drops_missing_witness :
    compute_digest id (fun _ => (none : Option FileData)) ["missing.txt"] = id [] :=
  (compute_digest_drops_missing id (fun _ => none)).2 ["missing.txt"]
    (by intro p _; rfl)

/-- Helper: the first line produced by `splitlines` is a prefix of the text. -/
theorem splitlines_head_prefix :
    ∀ (s : List Char) (l : List Char) (ls : List (List Char)),
      splitlines s = l :: ls → l <+: s := by
  intro s
  induction s with
  | nil => intro l ls h; simp [splitlines] at h
  | cons c t ih =>
    intro l ls h
    by_cases hc : c = '\n'
    · rw [splitlines, if_pos hc] at h
      injection h with h1 _
      rw [← h1]
      exact List.nil_prefix
    · rw [splitlines, if_neg hc] at h
      cases hsp : splitlines t with
      | nil =>
        rw [hsp] at h
        injection h with h1 _
        rw [← h1]
        exact ⟨t, rfl⟩
      | cons lh lt =>
        rw [hsp] at h
        injection h with h1 _
        obtain ⟨u, hu⟩ := ih lh lt hsp
        rw [← h1]
        exact ⟨u, by rw [List.cons_append, hu]⟩

/-- Helper: every line produced by `splitlines` is a contiguous piece of the
text. -/
theorem splitlines_piece_of : ∀ (s : List Char), ∀ l ∈ splitlines s, l <:+: s := by
  intro s
  induction s with
  | nil => intro l hl; simp [splitlines] at hl
  | cons c t ih =>
    intro l hl
    by_cases hc : c = '\n'
    · rw [splitlines, if_pos hc] at hl
      rcases List.mem_cons.mp hl with rfl | hl'
      · exact List.nil_infix
      · exact List.infix_cons (ih l hl')
    · rw [splitlines, if_neg hc] at hl
      cases hsp : splitlines t with
      | nil =>
        rw [hsp] at hl
        rw [List.mem_singleton.mp hl]
        exact List.IsPrefix.isInfix ⟨t, rfl⟩
      | cons lh lt =>
        rw [hsp] at hl
        rcases List.mem_cons.mp hl with rfl | hl'
        · obtain ⟨u, hu⟩ := splitlines_head_prefix t lh lt hsp
          exact List.IsPrefix.isInfix ⟨u, by rw [List.cons_append, hu]⟩
        · exact List.infix_cons (ih l (by rw [hsp]; exact List.mem_cons_of_mem _ hl'))

/-- Helper: a stripped string is a contiguous piece of the original. -/
theorem pyStrip_piece_of (s : List Char) : pyStrip s <:+: s := by
  unfold pyStrip
  have h1 : s.dropWhile pyIsSpace <:+ s := List.dropWhile_suffix _
  have h2 : (s.dropWhile pyIsSpace).reverse.dropWhile pyIsSpace <:+
      (s.dropWhile pyIsSpace).reverse := List.dropWhile_suffix _
  have h3 : ((s.dropWhile pyIsSpace).reverse.dropWhile pyIsSpace).reverse <+:
      s.dropWhile pyIsSpace := by
    rw [← List.reverse_suffix]
    simpa using h2
  exact h3.isInfix.trans h1.isInfix

/-- Helper: the post-fence accumulation is a `takeWhile`. -/
theorem fenceTake_eq (lines : List (List Char)) :
    fenceTake lines = lines.takeWhile (fun l => !isMarker l) := by
  induction lines with
  | nil => rfl
  | cons line rest ih =>
    rw [fenceTake, List.takeWhile_cons]
    by_cases h : isMarker line
    · simp [h]
    · simp only [h, Bool.not_false, if_true, ite_true]
      rw [ih]
      simp [h]

/-- Helper: the fence loop computes exactly the lines strictly between the
first marker line and the next marker line. -/
theorem fenceAccum_eq (lines : List (List Char)) :
    fenceAccum lines = fencedBody lines := by
  induction lines with
  | nil => rfl
  | cons line rest ih =>
    by_cases h : isMarker line
    · rw [fenceAccum, if_pos h, fencedBody, List.dropWhile_cons]
      simp only [h, Bool.not_true]
      rw [if_neg (by simp)]
      simp only [List.drop_succ_cons, List.drop_zero]
      exact fenceTake_eq rest
    · rw [fenceAccum, if_neg h, fencedBody, List.dropWhile_cons]
      simp only [h, Bool.not_false]
      rw [if_pos trivial]
      exact ih

/-- Helper: the head of a `dropWhile` fails the predicate. -/
theorem dropWhile_head_not {α : Type} (p : α → Bool) :
    ∀ (l : List α) (x : α) (xs : List α), l.dropWhile p = x :: xs → p x = false := by
  intro l
  induction l with
  | nil => intro x xs h; simp at h
  | cons a t ih =>
    intro x xs h
    rw [List.dropWhile_cons] at h
    by_cases ha : p a
    · rw [if_pos ha] at h
      exact ih x xs h
    · rw [if_neg ha] at h
      injection h with h1 _
      rw [← h1]
      exact Bool.eq_false_iff.mpr ha

/-- Helper: a nonempty fenced body implies the line list has a marker line. -/
theorem exists_marker_of_fencedBody_ne (lines : List (List Char))
    (h : fencedBody lines ≠ []) : ∃ l ∈ lines, isMarker l = true := by
  rw [fencedBody] at h
  cases hdrop : lines.dropWhile (fun l => !isMarker l) with
  | nil => rw [hdrop] at h; simp at h
  | cons x xs =>
    have hx := dropWhile_head_not (fun l => !isMarker l) lines x xs hdrop
    refine ⟨x, ?_, by simpa using hx⟩
    exact (List.dropWhile_suffix _).subset (by rw [hdrop]; exact List.mem_cons_self x xs)

/-- Helper: a marker line contains the triple backtick. -/
theorem triple_infix_of_isMarker (l : List Char) (h : isMarker l = true) :
    tripleBacktick <:+: l := by
  rw [isMarker] at h
  exact (of_decide_eq_true h).isInfix.trans (pyStrip_piece_of l)

/-- C8 counterexample: on the response with a fenced body " x" (one leading
space), extraction returns "x" — the fenced body additionally stripped of
surrounding whitespace, not exactly the body with only the fence markers
removed. -/
theorem extract_code_cex :
    pyExtract ("```\n x\n```").data = "x".data ∧
    fencedBody (splitlines (pyStrip ("```\n x\n```").data)) = [(" x").data] ∧
    pyExtract ("```\n x\n```").data ≠
      List.intercalate ['\n'] (fencedBody (splitlines (pyStrip ("```\n x\n```").data))) := by
  refine ⟨by decide, by decide, by decide⟩

/-- C8 amended: a response with no "```" substring is returned stripped of
surrounding whitespace; a response whose first fenced block has a nonempty
body yields that body — the lines strictly between the first marker line and
the next — joined with newlines and stripped of surrounding whitespace. -/
theorem extract_code_spec (response : List Char) :
    (¬ (tripleBacktick <:+: pyStrip response) → pyExtract response = pyStrip response) ∧
    (fencedBody (splitlines (pyStrip response)) ≠ [] →
      pyExtract response =
        pyStrip (List.intercalate ['\n'] (fencedBody (splitlines (pyStrip response))))) := by
  constructor
  · intro h
    rw [pyExtract, if_pos h]
  · intro h
    obtain ⟨l, hlmem, hlm⟩ := exists_marker_of_fencedBody_ne _ h
    have hinf : tripleBacktick <:+: pyStrip response :=
      (triple_infix_of_isMarker l hlm).trans (splitlines_piece_of _ l hlmem)
    rw [pyExtract, if_neg (not_not_intro hinf)]
    rw [fenceAccum_eq, if_pos h]

/-- Witness for `extract_code_spec` at a concrete input. -/
theorem extract_code_spec_witness :
    pyExtract ("  print(1)  ").data = pyStrip ("  print(1)  ").data :=
  (extract_code_spec ("  print(1)  ").data).1 (by decide)

/-- Helper: reading back a slot filled over `List.range`. -/
theorem getD_map_range {β : Type} (f : ℕ → β) (d : β) (n i : ℕ) (hi : i < n) :
    ((List.range n).map f).getD i d = f i := by
  rw [List.getD_eq_getElem _ d (by simpa using hi), List.getElem_map, List.getElem_range]

/-- C7: with at least one active task and at least one comparator, a
tournament over T active tasks and K comparators returns per-unit results for
exactly all T·(K+1) (task, model) slots — the source's incomplete-tournament
check never silently drops a slot — and an exception raised inside one unit
is converted into a failed result for that unit only: its slot is recorded
with success = false, while every slot is determined solely by its own unit's
outcome. -/
theorem tournament_spec (tasks : List CodingTask) (primaryCfg : ModelCfg)
    (comparatorCfgs : List ModelCfg)
    (oracle : ℕ → Option ℕ → Except String (ModelInvocation × TaskResult))
    (hT : tasks.filter (fun t => t.prompt ≠ "") ≠ []) (hK : comparatorCfgs ≠ []) :
    ∃ out, run_coding_competition tasks primaryCfg comparatorCfgs oracle = Except.ok out ∧
      out.tasks.length = (tasks.filter (fun t => t.prompt ≠ "")).length ∧
      (∀ rec ∈ out.tasks, rec.comparators.length = comparatorCfgs.length) ∧
      (∀ i, ∀ hi : i < out.tasks.length,
        (out.tasks.get ⟨i, hi⟩).primary =
          mkUnitRecord (evaluateUnit oracle
            ((tasks.filter (fun t => t.prompt ≠ "")).getD i ⟨"", ""⟩) primaryCfg i none)) ∧
      (∀ i, ∀ hi : i < out.tasks.length, ∀ k, k < comparatorCfgs.length →
        (out.tasks.get ⟨i, hi⟩).comparators.getD k (mkUnitRecord emptyUnit) =
          mkUnitRecord (evaluateUnit oracle
            ((tasks.filter (fun t => t.prompt ≠ "")).getD i ⟨"", ""⟩)
            (comparatorCfgs.getD k ⟨"", ""⟩) i (some k))) ∧
      (∀ i, ∀ hi : i < out.tasks.length, ∀ e, oracle i none = Except.error e →
        (out.tasks.get ⟨i, hi⟩).primary.success = false) := by
  have htasks : tasks ≠ [] := by
    intro h
    apply hT
    rw [h]
    rfl
  rw [run_coding_competition, if_neg htasks, if_neg hK]
  simp only
  rw [if_neg hT]
  rw [if_neg (c := ((List.range (tasks.filter (fun t => t.prompt ≠ "")).length).map fun i =>
      some (evaluateUnit oracle ((tasks.filter (fun t => t.prompt ≠ "")).getD i ⟨"", ""⟩)
        primaryCfg i none)).any (fun s => s.isNone) = true) (by simp)]
  rw [if_neg (by simp)]
  refine ⟨_, rfl, ?_, ?_, ?_, ?_, ?_⟩
  · simp
  · intro rec hrec
    obtain ⟨i, hi, rfl⟩ := List.mem_map.mp hrec
    have hilt : i < (tasks.filter (fun t => t.prompt ≠ "")).length := List.mem_range.mp hi
    simp only
    rw [getD_map_range _ _ _ _ hilt]
    simp
  · intro i hi
    have hilt : i < (tasks.filter (fun t => t.prompt ≠ "")).length := by
      simpa using hi
    simp only [List.get_eq_getElem, List.getElem_map, List.getElem_range]
    rw [getD_map_range _ _ _ _ hilt]
    rfl
  · intro i hi k hk
    have hilt : i < (tasks.filter (fun t => t.prompt ≠ "")).length := by
      simpa using hi
    simp only [List.get_eq_getElem, List.getElem_map, List.getElem_range]
    rw [getD_map_range _ _ _ _ hilt, List.map_map, getD_map_range _ _ _ _ hk]
    rfl
  · intro i hi e herr
    have hilt : i < (tasks.filter (fun t => t.prompt ≠ "")).length := by
      simpa using hi
    simp only [List.get_eq_getElem, List.getElem_map, List.getElem_range]
    rw [getD_map_range _ _ _ _ hilt]
    rw [evaluateUnit, herr]
    rfl

/-- One-task, one-comparator tournament where every unit raises. -/
def failingOracle : ℕ → Option ℕ → Except String (ModelInvocation × TaskResult) :=
  fun _ _ => Except.error "provider down"

/-- Witness for `tournament_spec` at a concrete input: both units of a 1×1
tournament raise, yet the tournament completes with both slots failed. -/
theorem tournament_spec_witness :
    ∃ out, run_coding_competition [⟨"t1", "prompt"⟩] ⟨"m0", "anthropic"⟩ [⟨"m1", "openai"⟩]
        failingOracle = Except.ok out ∧
      out.tasks.length =
        (([⟨"t1", "prompt"⟩] : List CodingTask).filter (fun t => t.prompt ≠ "")).length := by
  obtain ⟨out, h1, h2, _⟩ := tournament_spec [⟨"t1", "prompt"⟩] ⟨"m0", "anthropic"⟩
    [⟨"m1", "openai"⟩] failingOracle (by decide) (by decide)
  exact ⟨out, h1, h2⟩

/-- Helper: the guard either allows (no events) or records a failure. -/
theorem guardEvents_cases (e b : ℚ) :
    guardEvents e b = ([], true) ∨ guardEvents e b = (recordFailureEvents, false) := by
  unfold guardEvents
  cases guardCost e b
  · left; rfl
  · right; rfl
  · right; rfl

set_option maxHeartbeats 2000000 in
/-- Helper: every `process_one` path performs one of four database effect
sequences: a failure update with no trace, an underspecified update plus one
trace, a success update plus one trace, or a success update plus one artifact
and one trace. -/
theorem process_one_shapes (ctxOpt : Option RunContext) (o : HandlerOracles) :
    process_one ctxOpt o = recordFailureEvents ∨
    process_one ctxOpt o = markUnderspecifiedEvents ++ [DbEvent.traceInsert] ∨
    process_one ctxOpt o = successEvents ∨
    process_one ctxOpt o = [DbEvent.statusUpdate FinalStatus.succeeded, DbEvent.artifactInsert,
      DbEvent.traceInsert, DbEvent.validationInc, DbEvent.commit] := by
  cases ctxOpt with
  | none => left; rfl
  | some ctx =>
    simp only [process_one]
    rcases guardEvents_cases (2/100) (coerce_budget ctx.budgetRaw) with hg | hg <;>
      rw [hg] <;>
      (repeat' split) <;>
      first
        | exact Or.inl rfl
        | exact Or.inr (Or.inl rfl)
        | exact Or.inr (Or.inr (Or.inl rfl))
        | exact Or.inr (Or.inr (Or.inr rfl))
        | exact absurd (by rfl) (by assumption)
        | simp_all

/-- Context of a flagged coding-competition run with comparator configs
present. -/
def ctxCompetition : RunContext :=
  { domain := some "coding", task := some "", metric := none,
    requiresComparison := false, requiresMultimodal := false,
    comparativeSuite := some "coding_competition",
    telemetryPromptsPresent := false, telemetryComparatorsPresent := false,
    comparativeConfigsPresent := true, swebenchPredictionsPresent := false,
    budgetRaw := none }

/-- Oracles where the coding-competition harness raises `CodingBenchError`. -/
def oraclesCompetitionError : HandlerOracles :=
  { efficiency := Except.ok (), codingCompetition := Except.error (),
    vision := Except.ok (), gsm8k := Except.ok (), swebench := Except.ok (),
    humaneval := Except.ok (), agents := Except.ok false, computerUse := Except.ok false }

/-- C3 counterexample: a run failed through `_record_failure` (here: the
coding-competition branch catching `CodingBenchError`) reaches the terminal
`failed` status with zero trace rows written, not exactly one. -/
theorem trace_missing_on_failure_cex :
    process_one (some ctxCompetition) oraclesCompetitionError = recordFailureEvents ∧
    (process_one (some ctxCompetition) oraclesCompetitionError).count
      (DbEvent.statusUpdate FinalStatus.failed) = 1 ∧
    (process_one (some ctxCompetition) oraclesCompetitionError).count DbEvent.traceInsert = 0 := by
  refine ⟨rfl, rfl, rfl⟩

/-- C3 amended: every processed run performs exactly one terminal status
update; a trace row is never written before that update; and exactly one
trace row is written when the terminal status is `succeeded` (including the
Underspecified paths), while the failure paths (`_record_failure`,
`_guard_cost` failures, missing context) write none. -/
theorem trace_write_policy (ctxOpt : Option RunContext) (o : HandlerOracles) :
    (process_one ctxOpt o).countP (fun e => isStatusUpdate e) = 1 ∧
    ((process_one ctxOpt o).takeWhile (fun e => !isStatusUpdate e)).count
      DbEvent.traceInsert = 0 ∧
    (process_one ctxOpt o).count DbEvent.traceInsert =
      (if firstStatus (process_one ctxOpt o) = some FinalStatus.succeeded then 1 else 0) := by
  rcases process_one_shapes ctxOpt o with h | h | h | h <;> rw [h] <;> exact ⟨rfl, rfl, rfl⟩

end Claimscope
